import Mathlib

/-!
Verification of the feature-importance post-processing algorithms of the KIF
repository (`key_interactions_finder/post_proccessing.py`).

The development shallowly embeds the two core numerical algorithms and the
probability-distribution selection logic:

* `PostProcessor._dict_to_df_feat_importances` : feature-name parsing
  (regex split on runs of spaces, first digit run of each of the first two
  tokens, absolute value of the score) — embedded as `splitSp`,
  `extractDigits`, `parseResIds`, `parseFeature`, `dict_to_df_feat_importances`.
* `PostProcessor._per_res_importance` : per-residue aggregation with its
  collection loop over `range(1, max_res+1)`, key shift `i + 1`, rescale loop
  over `range(1, max_res)`, stable descending sort and 5-decimal rounding —
  embedded as `totScore`, `maxRes`, `per_res_importance`.
* `UnsupervisedPostProcessor._get_pca_importances` and `_scale_eigenvalues` —
  embedded as `selectNumComponents`, `scale_eigenvalues`, `get_pca_importances`.
* `StatClassificationPostProcessor.get_probability_distributions` — embedded
  as `get_probability_distributions` over a `ClassificationStatModel` state.

Numeric scores are modelled as rationals (exact arithmetic); `np.around(x, 5)`
is modelled as round-half-to-even at 5 decimals (`round5`).  Fallible Python
code (IndexError, KeyError, TypeError, empty `max()`) is modelled with
`Option`/`Except`.
-/

/-- Round-half-to-even of a rational to an integer, as `np.around` does at
decimal position 0: values with fractional part below one half round down,
above one half round up, and exactly one half rounds to the even neighbour. -/
def roundHalfEven (x : ℚ) : ℤ :=
  if x - Int.floor x < 1/2 then Int.floor x
  else if 1/2 < x - Int.floor x then Int.floor x + 1
  else if Int.floor x % 2 = 0 then Int.floor x else Int.floor x + 1

/-- Rounding to 5 decimal places (`np.around(x, 5)`), on exact rationals. -/
def round5 (x : ℚ) : ℚ := (roundHalfEven (x * 100000) : ℚ) / 100000

/-- Python `max()` over a list of rationals; the empty case (where Python
raises `ValueError`) is given the junk value 0 and is always guarded by the
callers embedded below. -/
def maxQ : List ℚ → ℚ
  | [] => 0
  | x :: xs => xs.foldl max x

/-- Stable insertion of a pair into a list sorted descending by second
component: the new element goes after every element with a strictly larger
value and before the first element whose value is not larger. -/
def insertDesc (p : ℕ × ℚ) : List (ℕ × ℚ) → List (ℕ × ℚ)
  | [] => [p]
  | q :: rest => if p.2 < q.2 then q :: insertDesc p rest else p :: q :: rest

/-- Stable sort, descending by second component: the embedding of Python's
stable `sorted(..., key=lambda x: x[1], reverse=True)` (any two stable sorts
by the same key order agree). -/
def sortDesc : List (ℕ × ℚ) → List (ℕ × ℚ)
  | [] => []
  | x :: xs => insertDesc x (sortDesc xs)

/-- One step of `re.split(" +", ·)`: accumulate the current token, emit it on
entering a run of spaces, skip the rest of the run (`inSp` is true while
inside a run), and emit the final token at the end of input. -/
def splitSpAux : List Char → List Char → Bool → List (List Char)
  | [], acc, _ => [acc.reverse]
  | c :: rest, acc, inSp =>
    if c = ' ' then
      if inSp then splitSpAux rest acc inSp
      else acc.reverse :: splitSpAux rest [] true
    else splitSpAux rest (c :: acc) false

/-- The split used by `df_feat_import[0].str.split(" +", expand=True)`:
tokens between maximal runs of spaces, keeping empty boundary tokens. -/
def splitSp (l : List Char) : List (List Char) := splitSpAux l [] false

/-- Longest leading run of digit characters. -/
def takeDigits : List Char → List Char
  | [] => []
  | c :: rest => if c.isDigit then c :: takeDigits rest else []

/-- First maximal run of digits in a token, as matched by
`.str.extract("(\d+)")`; `none` when the token has no digit. -/
def extractDigits : List Char → Option (List Char)
  | [] => none
  | c :: rest => if c.isDigit then some (c :: takeDigits rest) else extractDigits rest

/-- Decimal value of a digit run, as produced by `.astype(int)`. -/
def digitsToNat (l : List Char) : ℕ := l.foldl (fun n c => 10 * n + (c.toNat - 48)) 0

/-- Residue-id pair of a feature name: first digit run of token 0 and of
token 1 of the space split.  `none` models the `NaN`/missing-column failures
of the pandas pipeline when a name has fewer than two tokens or a token has
no digits. -/
def parseResIds (l : List Char) : Option (ℕ × ℕ) :=
  match splitSp l with
  | t0 :: t1 :: _ =>
    match extractDigits t0, extractDigits t1 with
    | some d0, some d1 => some (digitsToNat d0, digitsToNat d1)
    | _, _ => none
  | _ => none

/-- One parsed row of the dataframe built by `_dict_to_df_feat_importances`:
the two residue numbers and the (absolute-valued) score. -/
structure FeatRow where
  res1 : ℕ
  res2 : ℕ
  score : ℚ
deriving Repr, DecidableEq

/-- Row built from one entry of the feature-importance mapping; the score is
taken through `.abs()` as in the source. -/
def parseFeature (name : String) (score : ℚ) : Option FeatRow :=
  (parseResIds name.toList).map (fun p => ⟨p.1, p.2, |score|⟩)

/-- Parse every entry, failing if any single entry fails (in pandas a single
bad row poisons the `astype(int)` conversion of the whole column). -/
def parseRows : List (String × ℚ) → Option (List FeatRow)
  | [] => some []
  | p :: rest =>
    match parseFeature p.1 p.2, parseRows rest with
    | some r, some rs => some (r :: rs)
    | _, _ => none

/-- Embedding of `PostProcessor._dict_to_df_feat_importances`: the dataframe
of `(Res1, Res2, Score)` rows, one per feature, in input order.  An empty
mapping fails (`df_feat_import[0]` raises on an empty frame). -/
def dict_to_df_feat_importances (fi : List (String × ℚ)) : Option (List FeatRow) :=
  if fi.isEmpty then none else parseRows fi

/-- Total score of residue `i`: the sum of scores of rows with `Res1 == i`
plus the sum of scores of rows with `Res2 == i`, exactly as the body of the
collection loop of `_per_res_importance`. -/
def totScore (rows : List FeatRow) (i : ℕ) : ℚ :=
  ((rows.filter (fun r => r.res1 == i)).map FeatRow.score).sum +
  ((rows.filter (fun r => r.res2 == i)).map FeatRow.score).sum

/-- Embedding of `max(per_res_import[["Res1", "Res2"]].max())`. -/
def maxRes (rows : List FeatRow) : ℕ :=
  (rows.map (fun r => max r.res1 r.res2)).foldl max 0

/-- The `tot_scores` list of `_per_res_importance`: entry `i - 1` (0-based)
holds the total score of residue `i`, for `i` in `range(1, max_res+1)`. -/
def tot_scores_list (rows : List FeatRow) : List ℚ :=
  (List.range' 1 (maxRes rows)).map (totScore rows)

/-- The normalisation constant `max_ori_score = max(tot_scores)`. -/
def maxTotScore (rows : List FeatRow) : ℚ := maxQ (tot_scores_list rows)

/-- Embedding of `PostProcessor._per_res_importance`.  Mirrors the source
line by line: `res_ids` collects `i + 1` for `i` in `range(1, max_res+1)`;
`tot_scores` collects the per-residue sums; the rescale loop reads the list
positions `1 .. max_res-1` of `tot_scores`; `zip` truncates to the shorter
list; the result is sorted descending by score (stably) and rounded to 5
decimals.  `none` models the `ValueError`s on empty input (`max` of an empty
sequence). -/
def per_res_importance (rows : List FeatRow) : Option (List (ℕ × ℚ)) :=
  if rows.isEmpty then none
  else
    let M := maxRes rows
    let res_ids := (List.range' 1 M).map (fun i => i + 1)
    let tot_scores := (List.range' 1 M).map (totScore rows)
    if tot_scores.isEmpty then none
    else
      let maxOri := maxQ tot_scores
      let scaled := (List.range' 1 (M - 1)).map (fun i => tot_scores.getD i 0 / maxOri)
      let pairs := res_ids.zip scaled
      some ((sortDesc pairs).map (fun p => (p.1, round5 p.2)))

/-- The full per-residue pipeline: `_dict_to_df_feat_importances` followed by
`_per_res_importance` (the spec's `aggregate_to_residues`). -/
def aggregate_to_residues (fi : List (String × ℚ)) : Option (List (ℕ × ℚ)) :=
  (dict_to_df_feat_importances fi).bind per_res_importance

/-- Loop of `_get_pca_importances` selecting the number of principal
components: starting from `combined_variance = variances[0]` and
`idx_position = 1`, while `combined_variance <= cutoff` add
`variances[idx_position]` and increment; `none` models the `IndexError`
raised when the loop walks past the available components. -/
def pcaGo (cutoff : ℚ) : ℚ → ℕ → List ℚ → Option ℕ
  | combined, idx, [] => if cutoff < combined then some idx else none
  | combined, idx, v :: rest =>
    if cutoff < combined then some idx
    else pcaGo cutoff (combined + v) (idx + 1) rest

/-- Number of retained components (`idx_position` at loop exit); `none` on an
empty ratio sequence (`variances[0]` raises) or when the cumulative variance
never strictly exceeds the cutoff. -/
def selectNumComponents (cutoff : ℚ) : List ℚ → Option ℕ
  | [] => none
  | v :: rest => pcaGo cutoff v 1 rest

/-- Embedding of `UnsupervisedPostProcessor._scale_eigenvalues`: divide every
summed eigenvalue by the largest one; `none` models `max()` on an empty list. -/
def scale_eigenvalues (eigenvalue_sums : List ℚ) : Option (List ℚ) :=
  if eigenvalue_sums.isEmpty then none
  else some (eigenvalue_sums.map (fun s => s / maxQ eigenvalue_sums))

/-- Python `enumerate`, pairing each element with its index. -/
def enumFromQ (i : ℕ) : List ℚ → List (ℕ × ℚ)
  | [] => []
  | x :: xs => (i, x) :: enumFromQ (i + 1) xs

/-- Embedding of `UnsupervisedPostProcessor._get_pca_importances` on
already-loaded data: select the retained components, then — exactly as the
source loop `for idx, _ in enumerate(components_keep)` does — build one
eigenvalue sum per RETAINED COMPONENT index `idx` (not per feature), each sum
being `sum(|components_keep[j][idx] * variances[j]|)` over the retained
components `j`; scale by the maximum and zip with the feature names
(truncating to the shorter list, as `zip` does). -/
def get_pca_importances (variances : List ℚ) (components : List (List ℚ))
    (feat_names : List String) (cutoff : ℚ) : Option (List (String × ℚ)) :=
  (selectNumComponents cutoff variances).bind (fun idx_position =>
    let components_keep := components.take idx_position
    let eigenvalue_sums := (List.range components_keep.length).map (fun idx =>
      ((enumFromQ 0 (components_keep.map (fun row => row.getD idx 0))).map
        (fun je => |je.2 * variances.getD je.1 0|)).sum)
    (scale_eigenvalues eigenvalue_sums).map (fun scaled => feat_names.zip scaled))

/-- Python errors surfaced by `get_probability_distributions`. -/
inductive PyError where
  | typeError
  | keyError
  | valueError
deriving Repr, DecidableEq

/-- The `number_features` argument, an `int` or a `str` in Python. -/
inductive NumberFeatures where
  | int (n : ℤ)
  | str (s : String)

/-- State of a `ClassificationStatModel` as consumed by
`StatClassificationPostProcessor.get_probability_distributions`: the ranked
Jensen-Shannon distance table, the shared x grid, the per-class probability
distributions and the class names.  `js_table` is the table that a
(re)computation of the distances would produce. -/
structure ClassificationStatModel where
  js_distances : List (String × ℚ)
  x_values : List ℚ
  probability_distributions : List (String × List (String × List ℚ))
  class_names : List String
  js_table : List (String × ℚ)

/-- Modelled from the spec: `ClassificationStatModel.calc_js_distances` lives
in `stat_modelling.py`, which is not part of the sources under verification;
per the spec (§6, the Jensen-Shannon distance table is produced by the
statistics component) it recomputes the per-feature Jensen-Shannon distance
table and stores it in `js_distances`.  The recomputed table is modelled as
the `js_table` field of the state. -/
def calc_js_distances (m : ClassificationStatModel) : ClassificationStatModel :=
  { m with js_distances := m.js_table }

/-- Python slice `l[0:n]` for an integer `n` of either sign: a non-negative
stop takes a prefix, a negative stop drops `|n|` elements from the end
(clamped at zero). -/
def pySlice (l : List String) (n : ℤ) : List String :=
  if 0 ≤ n then l.take n.toNat else l.take (l.length - (-n).toNat)

/-- The inner selection loop of `get_probability_distributions`: look up
every requested feature in one class's table, in request order; `none`
models a `KeyError`. -/
def lookupFeats (table : List (String × List ℚ)) : List String → Option (List (String × List ℚ))
  | [] => some []
  | f :: fs =>
    match table.lookup f, lookupFeats table fs with
    | some d, some inner => some ((f, d) :: inner)
    | _, _ => none

/-- The outer selection loop over class names; `none` models a `KeyError` on
either lookup level. -/
def buildSelected (cns : List String) (feats : List String)
    (pd : List (String × List (String × List ℚ))) :
    Option (List (String × List (String × List ℚ))) :=
  match cns with
  | [] => some []
  | cn :: rest =>
    match pd.lookup cn with
    | some table =>
      match lookupFeats table feats, buildSelected rest feats pd with
      | some inner, some sel => some ((cn, inner) :: sel)
      | _, _ => none
    | none => none

/-- Embedding of `StatClassificationPostProcessor.get_probability_distributions`.
The state is threaded explicitly: if the distance table is empty it is first
recomputed (`calc_js_distances`).  Branches follow the source: `"all"` or an
integer at least the feature count returns everything; any other string hits
the Python 3 `str >= int` comparison and raises `TypeError`; an integer below
the feature count slices the ranked feature list with `[0:number_features]`
and selects those features for every class. -/
def get_probability_distributions (m : ClassificationStatModel)
    (number_features : NumberFeatures) :
    ClassificationStatModel ×
      Except PyError (List ℚ × List (String × List (String × List ℚ))) :=
  let m1 := if m.js_distances.length = 0 then calc_js_distances m else m
  let tot := m1.js_distances.length
  match number_features with
  | NumberFeatures.str s =>
    if s = "all" then (m1, Except.ok (m1.x_values, m1.probability_distributions))
    else (m1, Except.error PyError.typeError)
  | NumberFeatures.int n =>
    if (tot : ℤ) ≤ n then (m1, Except.ok (m1.x_values, m1.probability_distributions))
    else
      match buildSelected m1.class_names (pySlice (m1.js_distances.map Prod.fst) n)
          m1.probability_distributions with
      | some sel => (m1, Except.ok (m1.x_values, sel))
      | none => (m1, Except.error PyError.keyError)

/-- Decidable well-formedness of a model for top-N selection: every class
name has a distribution table containing every ranked feature. -/
def wfCheck (m : ClassificationStatModel) : Bool :=
  m.class_names.all (fun cn =>
    match m.probability_distributions.lookup cn with
    | some table => (m.js_distances.map Prod.fst).all (fun f => (table.lookup f).isSome)
    | none => false)

/-- Rounding never overshoots an integer bound: if `y ≤ n` then the
half-to-even rounding of `y` is at most `n`. -/
lemma roundHalfEven_le (y : ℚ) (n : ℤ) (h : y ≤ n) : roundHalfEven y ≤ n := by
  have hfl : Int.floor y ≤ n := by
    have h2 := Int.floor_le_floor (α := ℚ) h
    simpa using h2
  have hup : (1:ℚ)/2 ≤ y - Int.floor y → Int.floor y + 1 ≤ n := by
    intro hf
    have h0 : (Int.floor y : ℚ) < y := by linarith
    have h3 : (Int.floor y : ℚ) < (n : ℚ) := lt_of_lt_of_le h0 h
    have h4 : Int.floor y < n := by exact_mod_cast h3
    omega
  unfold roundHalfEven
  split_ifs with h1 h2 h3
  · exact hfl
  · exact hup (le_of_lt h2)
  · exact hfl
  · exact hup (by linarith [not_lt.mp h1])

/-- Five-decimal rounding of a value at most one is at most one. -/
lemma round5_le_one (x : ℚ) (h : x ≤ 1) : round5 x ≤ 1 := by
  have hb : roundHalfEven (x * 100000) ≤ 100000 := by
    apply roundHalfEven_le
    push_cast
    linarith
  unfold round5
  rw [div_le_one (by norm_num)]
  exact_mod_cast hb

/-- Five-decimal rounding fixes one. -/
lemma round5_one : round5 1 = 1 := by
  norm_num [round5, roundHalfEven]

/-- The initial accumulator never exceeds a `foldl max`. -/
lemma le_foldl_max (l : List ℚ) : ∀ b : ℚ, b ≤ l.foldl max b := by
  induction l with
  | nil => intro b; simp
  | cons x xs ih =>
    intro b
    calc b ≤ max b x := le_max_left _ _
    _ ≤ xs.foldl max (max b x) := ih _

/-- Every member of a list is at most its `foldl max`. -/
lemma mem_le_foldl_max (l : List ℚ) : ∀ x ∈ l, ∀ b : ℚ, x ≤ l.foldl max b := by
  induction l with
  | nil => intro x hx; cases hx
  | cons y ys ih =>
    intro x hx b
    rcases List.mem_cons.mp hx with h | h
    · subst h
      calc x ≤ max b x := le_max_right _ _
      _ ≤ ys.foldl max (max b x) := le_foldl_max ys _
    · exact ih x h _

/-- Every member of a list is at most its Python `max()`. -/
lemma le_maxQ {x : ℚ} {l : List ℚ} (h : x ∈ l) : x ≤ maxQ l := by
  cases l with
  | nil => cases h
  | cons y ys =>
    rcases List.mem_cons.mp h with h1 | h1
    · subst h1; exact le_foldl_max ys x
    · exact mem_le_foldl_max ys x h1 y

/-- Stable descending insertion is a permutation of consing. -/
lemma insertDesc_perm (p : ℕ × ℚ) (l : List (ℕ × ℚ)) : (insertDesc p l).Perm (p :: l) := by
  induction l with
  | nil => simp [insertDesc]
  | cons q rest ih =>
    unfold insertDesc
    split_ifs
    · exact (ih.cons q).trans (List.Perm.swap p q rest)
    · exact List.Perm.refl _

/-- The stable descending sort is a permutation of its input. -/
lemma sortDesc_perm (l : List (ℕ × ℚ)) : (sortDesc l).Perm l := by
  induction l with
  | nil => simp [sortDesc]
  | cons x xs ih =>
    exact (insertDesc_perm x (sortDesc xs)).trans (ih.cons x)

/-- Membership is preserved by the stable descending sort. -/
lemma mem_sortDesc {x : ℕ × ℚ} {l : List (ℕ × ℚ)} : x ∈ sortDesc l ↔ x ∈ l :=
  (sortDesc_perm l).mem_iff

/-- Shifting a `range'` by one via a map. -/
lemma map_add_one_range' (s n : ℕ) :
    (List.range' s n).map (fun i => i + 1) = List.range' (s + 1) n := by
  induction n generalizing s with
  | zero => simp
  | succ m ih => simp [List.range'_succ, ih]

/-- Indexing into a mapped `range'`. -/
lemma getD_map_range' (f : ℕ → ℚ) :
    ∀ (n s i : ℕ), i < n → ((List.range' s n).map f).getD i 0 = f (s + i) := by
  intro n
  induction n with
  | zero => intro s i hi; omega
  | succ m ih =>
    intro s i hi
    cases i with
    | zero => simp [List.range'_succ]
    | succ j =>
      have hj : j < m := by omega
      simp only [List.range'_succ, List.map_cons, List.getD_cons_succ]
      rw [ih (s + 1) j hj]
      congr 1
      omega

/-- Zipping the shifted ids with one fewer scaled value: the embedding of
`zip(res_ids, tot_scores_scaled)` where `res_ids` has one extra element that
`zip` drops. -/
lemma zip_range'_shift (g : ℕ → ℚ) :
    ∀ (n s : ℕ),
      (((List.range' s (n + 1)).map (fun i => i + 1)).zip ((List.range' s n).map g)) =
        (List.range' s n).map (fun i => (i + 1, g i)) := by
  intro n
  induction n with
  | zero => intro s; simp [List.range'_succ]
  | succ m ih =>
    intro s
    rw [List.range'_succ s (m + 1) 1, List.range'_succ s m 1]
    simp only [List.map_cons, List.zip_cons_cons]
    rw [ih (s + 1)]

/-- Successful parsing relates input entries and rows positionally. -/
lemma parseRows_forall₂ :
    ∀ {fi : List (String × ℚ)} {rows : List FeatRow}, parseRows fi = some rows →
      List.Forall₂ (fun (p : String × ℚ) (r : FeatRow) => parseFeature p.1 p.2 = some r) fi rows := by
  intro fi
  induction fi with
  | nil =>
    intro rows h
    simp only [parseRows, Option.some_inj] at h
    subst h
    exact List.Forall₂.nil
  | cons p rest ih =>
    intro rows h
    simp only [parseRows] at h
    cases hp : parseFeature p.1 p.2 with
    | none => rw [hp] at h; cases h
    | some r =>
      rw [hp] at h
      cases hr : parseRows rest with
      | none => rw [hr] at h; cases h
      | some rs =>
        rw [hr] at h
        simp only [Option.some_inj] at h
        subst h
        exact List.Forall₂.cons hp (ih hr)

/-- A successfully parsed row always carries the absolute value of the
input score (the unconditional `.abs()` of the source). -/
lemma parseFeature_score {name : String} {s : ℚ} {r : FeatRow}
    (h : parseFeature name s = some r) : r.score = |s| := by
  unfold parseFeature at h
  cases hp : parseResIds name.toList with
  | none => rw [hp] at h; cases h
  | some q =>
    rw [hp] at h
    simp only [Option.map_some', Option.some_inj] at h
    subst h
    rfl

/-- Splitting a successful `dict_to_df_feat_importances` call into its guard
and its row parse. -/
lemma dict_to_df_some {fi : List (String × ℚ)} {rows : List FeatRow}
    (h : dict_to_df_feat_importances fi = some rows) :
    fi ≠ [] ∧ parseRows fi = some rows := by
  unfold dict_to_df_feat_importances at h
  split_ifs at h with hif
  exact ⟨by simpa [List.isEmpty_iff] using hif, h⟩

/-- The rows of a successful parse are as many as the input entries. -/
lemma dict_to_df_length {fi : List (String × ℚ)} {rows : List FeatRow}
    (h : dict_to_df_feat_importances fi = some rows) : rows.length = fi.length :=
  ((parseRows_forall₂ (dict_to_df_some h).2).length_eq).symm

/-- The pairs that `_per_res_importance` zips together, in closed form: keys
`2 .. max_res` (the shifted ids, truncated by `zip`), each paired with the
UNROUNDED normalised total of the residue with the SAME number (the `i + 1`
key shift and the rescale loop's start at list position 1 cancel out). -/
def canonPairs (rows : List FeatRow) : List (ℕ × ℚ) :=
  (List.range' 2 (maxRes rows - 1)).map
    (fun k => (k, totScore rows k / maxTotScore rows))
/-- The zipped `(res_ids, tot_scores_scaled)` pairs in closed form. -/
lemma zip_pairs_eq (rows : List FeatRow) (h1 : 1 ≤ maxRes rows) :
    ((List.range' 1 (maxRes rows)).map (fun i => i + 1)).zip
      ((List.range' 1 (maxRes rows - 1)).map
        (fun i => (tot_scores_list rows).getD i 0 / maxQ (tot_scores_list rows))) =
    canonPairs rows := by
  obtain ⟨q, hq⟩ : ∃ q, maxRes rows = q + 1 := ⟨maxRes rows - 1, by omega⟩
  unfold canonPairs
  rw [hq]
  simp only [Nat.add_sub_cancel]
  rw [zip_range'_shift]
  rw [show List.range' 2 q = (List.range' 1 q).map (fun i => i + 1) from
    (map_add_one_range' 1 q).symm]
  rw [List.map_map]
  apply List.map_congr_left
  intro i hi
  have hmem := List.mem_range'_1.mp hi
  have hilt : i < maxRes rows := by omega
  simp only [Function.comp]
  unfold tot_scores_list
  rw [getD_map_range' (totScore rows) (maxRes rows) 1 i hilt]
  have h2 : 1 + i = i + 1 := by omega
  rw [h2]
  rfl

/-- Closed form of `per_res_importance` on nonempty input with a nonzero
maximal residue id: sort the canonical pairs (stably, descending by value)
and round each value to 5 decimals. -/
lemma per_res_importance_eq (rows : List FeatRow) (hne : rows ≠ [])
    (h1 : 1 ≤ maxRes rows) :
    per_res_importance rows =
      some ((sortDesc (canonPairs rows)).map (fun p => (p.1, round5 p.2))) := by
  have hie : rows.isEmpty = false := by simp [hne]
  have hts : ((List.range' 1 (maxRes rows)).map (totScore rows)).isEmpty = false := by
    have : List.range' 1 (maxRes rows) ≠ [] := by
      simp only [ne_eq, List.range'_eq_nil]
      omega
    simp [this]
  unfold per_res_importance
  rw [hie]
  simp only [Bool.false_eq_true, if_false, hts]
  have hzip := zip_pairs_eq rows h1
  unfold tot_scores_list at hzip
  rw [hzip]

/-- Filtered score sums rewritten as sums over all rows. -/
lemma sum_filter_eq (rows : List FeatRow) (f : FeatRow → ℕ) (i : ℕ) :
    ((rows.filter (fun r => f r == i)).map FeatRow.score).sum =
      (rows.map (fun r => if f r = i then r.score else 0)).sum := by
  induction rows with
  | nil => rfl
  | cons r rest ih =>
    by_cases h : f r = i
    · simp [List.filter_cons, h, ih]
    · simp [List.filter_cons, h, ih]

/-- Pointwise sums of two mapped lists. -/
lemma sum_map_add (l : List FeatRow) (f g : FeatRow → ℚ) :
    (l.map (fun r => f r + g r)).sum = (l.map f).sum + (l.map g).sum := by
  induction l with
  | nil => simp
  | cons r rest ih =>
    simp only [List.map_cons, List.sum_cons, ih]
    ring

/-- Per-row form of the residue total: each row contributes its score once
for a `Res1` match and once for a `Res2` match (so a self-pair contributes
twice). -/
lemma totScore_eq_sum (rows : List FeatRow) (i : ℕ) :
    totScore rows i =
      (rows.map (fun r => (if r.res1 = i then r.score else 0) +
        (if r.res2 = i then r.score else 0))).sum := by
  rw [totScore, sum_filter_eq rows (fun r => r.res1) i, sum_filter_eq rows (fun r => r.res2) i,
    sum_map_add]

/-- A row with both residue tokens swapped. -/
def swapRow (r : FeatRow) : FeatRow := ⟨r.res2, r.res1, r.score⟩

/-- Swapping tokens inside any subset of the rows leaves every residue total
unchanged. -/
lemma totScore_swapInv {rows rows' : List FeatRow}
    (h : List.Forall₂ (fun r r2 => r2 = r ∨ r2 = swapRow r) rows rows') (i : ℕ) :
    totScore rows' i = totScore rows i := by
  rw [totScore_eq_sum, totScore_eq_sum]
  induction h with
  | nil => rfl
  | cons hr hrest ih =>
    simp only [List.map_cons, List.sum_cons, ih]
    congr 1
    rcases hr with h1 | h1 <;> subst h1
    · rfl
    · simp only [swapRow]
      ring

/-- Swapping tokens inside any subset of the rows leaves the maximal residue
id unchanged. -/
lemma maxRes_swapInv {rows rows' : List FeatRow}
    (h : List.Forall₂ (fun r r2 => r2 = r ∨ r2 = swapRow r) rows rows') :
    maxRes rows' = maxRes rows := by
  unfold maxRes
  have hmap : rows'.map (fun r => max r.res1 r.res2) = rows.map (fun r => max r.res1 r.res2) := by
    induction h with
    | nil => rfl
    | cons hr hrest ih =>
      simp only [List.map_cons, ih]
      rcases hr with h1 | h1 <;> subst h1
      · rfl
      · simp only [swapRow, Nat.max_comm]
  rw [hmap]

/-- On a nonempty list whose members all equal one, a `foldl max` equals the
max of the accumulator and one. -/
lemma foldl_max_all_one :
    ∀ (l : List ℕ) (a : ℕ), l ≠ [] → (∀ x ∈ l, x = 1) → l.foldl max a = max a 1 := by
  intro l
  induction l with
  | nil => intro a h; cases h rfl
  | cons x xs ih =>
    intro a _ hall
    have hx : x = 1 := hall x (List.mem_cons_self x xs)
    subst hx
    cases xs with
    | nil => simp
    | cons y ys =>
      rw [List.foldl_cons, ih (max a 1) (by simp) (fun z hz => hall z (List.mem_cons_of_mem _ hz))]
      omega

/-- The PCA while-loop returns `none` exactly when every running total stays
at or below the cutoff. -/
lemma pcaGo_eq_none_iff (cutoff : ℚ) :
    ∀ (l : List ℚ) (c : ℚ) (idx : ℕ),
      pcaGo cutoff c idx l = none ↔ ∀ q ≤ l.length, c + (l.take q).sum ≤ cutoff := by
  intro l
  induction l with
  | nil =>
    intro c idx
    unfold pcaGo
    constructor
    · intro h q hq
      simp only [List.length_nil, Nat.le_zero] at hq
      subst hq
      simp only [List.take_nil, List.sum_nil, add_zero]
      by_contra hc
      rw [if_pos (not_le.mp hc)] at h
      cases h
    · intro h
      rw [if_neg (not_lt.mpr (by simpa using h 0 (le_refl 0)))]
  | cons v rest ih =>
    intro c idx
    unfold pcaGo
    by_cases hc : cutoff < c
    · rw [if_pos hc]
      constructor
      · intro h; cases h
      · intro h
        exfalso
        have := h 0 (by omega)
        simp only [List.take_zero, List.sum_nil, add_zero] at this
        exact absurd hc (not_lt.mpr this)
    · rw [if_neg hc]
      rw [ih (c + v) (idx + 1)]
      constructor
      · intro h q hq
        cases q with
        | zero => simpa using not_lt.mp hc
        | succ q' =>
          have hq' : q' ≤ rest.length := by simpa using hq
          have := h q' hq'
          simp only [List.take_succ_cons, List.sum_cons]
          linarith
      · intro h q hq
        have := h (q + 1) (by simpa using hq)
        simp only [List.take_succ_cons, List.sum_cons] at this
        linarith

/-- The PCA while-loop, when it stops, stops at the first prefix whose
running total strictly exceeds the cutoff. -/
lemma pcaGo_eq_some (cutoff : ℚ) :
    ∀ (l : List ℚ) (c : ℚ) (idx p : ℕ), pcaGo cutoff c idx l = some p →
      ∃ j, j ≤ l.length ∧ p = idx + j ∧ cutoff < c + (l.take j).sum ∧
        ∀ i < j, c + (l.take i).sum ≤ cutoff := by
  intro l
  induction l with
  | nil =>
    intro c idx p h
    unfold pcaGo at h
    split_ifs at h with hc
    · cases h
      exact ⟨0, by omega, by omega, by simpa using hc, by omega⟩
  | cons v rest ih =>
    intro c idx p h
    unfold pcaGo at h
    split_ifs at h with hc
    · cases h
      exact ⟨0, by omega, by omega, by simpa using hc, by omega⟩
    · obtain ⟨j, hj1, hj2, hj3, hj4⟩ := ih (c + v) (idx + 1) p h
      refine ⟨j + 1, by simpa using hj1, by omega, ?_, ?_⟩
      · simpa [add_assoc] using hj3
      · intro i hi
        cases i with
        | zero => simpa using not_lt.mp hc
        | succ i' =>
          have := hj4 i' (by omega)
          simp only [List.take_succ_cons, List.sum_cons]
          linarith

/-- On a list of non-negative values, prefix sums are bounded by the total. -/
lemma take_sum_le {l : List ℚ} (hnn : ∀ x ∈ l, 0 ≤ x) (q : ℕ) : (l.take q).sum ≤ l.sum := by
  have hsplit : (l.take q).sum + (l.drop q).sum = l.sum := by
    rw [← List.sum_append, List.take_append_drop]
  have hd : 0 ≤ (l.drop q).sum :=
    List.sum_nonneg (fun x hx => hnn x (List.drop_subset q l hx))
  linarith

/-- When every requested feature is present in a class's table, the inner
selection loop succeeds and returns the features in request order. -/
lemma lookupFeats_spec (table : List (String × List ℚ)) :
    ∀ (feats : List String), (∀ f ∈ feats, (table.lookup f).isSome) →
      ∃ inner, lookupFeats table feats = some inner ∧ inner.map Prod.fst = feats := by
  intro feats
  induction feats with
  | nil =>
    intro _
    exact ⟨[], rfl, rfl⟩
  | cons f fs ih =>
    intro h
    obtain ⟨d, hd⟩ := Option.isSome_iff_exists.mp (h f (List.mem_cons_self f fs))
    obtain ⟨inner, hinner, hkeys⟩ := ih (fun x hx => h x (List.mem_cons_of_mem _ hx))
    refine ⟨(f, d) :: inner, ?_, by simp [hkeys]⟩
    unfold lookupFeats
    rw [hd, hinner]

/-- When every class is present and owns every requested feature, the nested
selection loops succeed, preserving class order and per-class feature order. -/
lemma buildSelected_wf :
    ∀ (cns : List String) (feats : List String) (pd : List (String × List (String × List ℚ))),
      (∀ cn ∈ cns, ∃ table, pd.lookup cn = some table ∧
        ∀ f ∈ feats, (table.lookup f).isSome) →
      ∃ sel, buildSelected cns feats pd = some sel ∧ sel.map Prod.fst = cns ∧
        ∀ q ∈ sel, q.2.map Prod.fst = feats := by
  intro cns
  induction cns with
  | nil =>
    intro feats pd _
    exact ⟨[], rfl, rfl, by simp⟩
  | cons cn rest ih =>
    intro feats pd h
    obtain ⟨table, htable, hfeats⟩ := h cn (List.mem_cons_self cn rest)
    obtain ⟨inner, hinner, hkeys⟩ := lookupFeats_spec table feats hfeats
    obtain ⟨sel, hsel, hsk, hsf⟩ := ih feats pd (fun x hx => h x (List.mem_cons_of_mem _ hx))
    refine ⟨(cn, inner) :: sel, ?_, by simp [hsk], ?_⟩
    · unfold buildSelected
      rw [htable]
      simp only [hinner, hsel]
    · intro q hq
      rcases List.mem_cons.mp hq with h1 | h1
      · subst h1; exact hkeys
      · exact hsf q h1

/-- Unfolding the decidable well-formedness check. -/
lemma wfCheck_spec {m : ClassificationStatModel} (h : wfCheck m = true) :
    ∀ cn ∈ m.class_names, ∃ table, m.probability_distributions.lookup cn = some table ∧
      ∀ f ∈ m.js_distances.map Prod.fst, (table.lookup f).isSome := by
  intro cn hcn
  have hc := List.all_eq_true.mp h cn hcn
  cases ht : m.probability_distributions.lookup cn with
  | none => rw [ht] at hc; cases hc
  | some table =>
    rw [ht] at hc
    exact ⟨table, rfl, fun f hf => by simpa using List.all_eq_true.mp hc f hf⟩

/-- The keys of the canonical pairs are `2 .. max_res`. -/
lemma canonPairs_keys (rows : List FeatRow) :
    (canonPairs rows).map Prod.fst = List.range' 2 (maxRes rows - 1) := by
  unfold canonPairs
  rw [List.map_map]
  have hid : (Prod.fst ∘ fun k : ℕ => (k, totScore rows k / maxTotScore rows)) =
      (fun k : ℕ => k) := rfl
  rw [hid, List.map_id']

/-- Claim C3: for parsed residue ids spanning `1..M` with `M ≥ 2`, the
mapping returned by `_per_res_importance` has exactly the keys `2..M`
(`M - 1` entries), and the value stored under key `k` is the normalised
aggregated score that the collection loop computed for raw index `k - 1` of
its `tot_scores` list. -/
theorem claim_C3_shifted_keys (rows : List FeatRow) (M : ℕ)
    (hM : maxRes rows = M) (h2 : 2 ≤ M) :
    ∃ out, per_res_importance rows = some out ∧
      (out.map Prod.fst).Perm (List.range' 2 (M - 1)) ∧
      ∀ k v, (k, v) ∈ out →
        v = round5 ((tot_scores_list rows).getD (k - 1) 0 / maxQ (tot_scores_list rows)) := by
  subst hM
  have hne : rows ≠ [] := by
    intro hcon
    subst hcon
    rw [show maxRes ([] : List FeatRow) = 0 from rfl] at h2
    omega
  have h1 : 1 ≤ maxRes rows := by omega
  refine ⟨_, per_res_importance_eq rows hne h1, ?_, ?_⟩
  · rw [List.map_map]
    have hfst : (Prod.fst ∘ fun p : ℕ × ℚ => (p.1, round5 p.2)) = Prod.fst := rfl
    rw [hfst, ← canonPairs_keys rows]
    exact (sortDesc_perm (canonPairs rows)).map Prod.fst
  · intro k v hkv
    obtain ⟨p, hp, hpe⟩ := List.mem_map.mp hkv
    have hp2 : p ∈ canonPairs rows := mem_sortDesc.mp hp
    obtain ⟨k', hk', hke⟩ := List.mem_map.mp hp2
    have hkr := List.mem_range'_1.mp hk'
    obtain ⟨hk, hv⟩ : k' = k ∧ round5 (totScore rows k' / maxTotScore rows) = v := by
      rw [← hke] at hpe
      simpa using hpe
    subst hk
    have hklt : k' - 1 < maxRes rows := by omega
    have hgd : (tot_scores_list rows).getD (k' - 1) 0 = totScore rows k' := by
      unfold tot_scores_list
      rw [getD_map_range' (totScore rows) (maxRes rows) 1 (k' - 1) hklt]
      congr 1
      omega
    rw [hgd, ← hv]
    rfl

/-- Claim C4 (amended): the aggregation output has exactly one entry per id
in `2 .. max_res`, where `max_res` is the largest parsed residue id —
irrespective of which residue ids actually occur in the features. -/
theorem claim_C4_amended_range (fi : List (String × ℚ)) (rows : List FeatRow)
    (h : dict_to_df_feat_importances fi = some rows) (hM : 2 ≤ maxRes rows) :
    ∃ out, aggregate_to_residues fi = some out ∧
      (out.map Prod.fst).Perm (List.range' 2 (maxRes rows - 1)) := by
  have hne : rows ≠ [] := by
    intro hcon
    subst hcon
    rw [show maxRes ([] : List FeatRow) = 0 from rfl] at hM
    omega
  unfold aggregate_to_residues
  rw [h, Option.some_bind]
  refine ⟨_, per_res_importance_eq rows hne (by omega), ?_⟩
  rw [List.map_map]
  have hfst : (Prod.fst ∘ fun p : ℕ × ℚ => (p.1, round5 p.2)) = Prod.fst := rfl
  rw [hfst, ← canonPairs_keys rows]
  exact (sortDesc_perm (canonPairs rows)).map Prod.fst

/-- Claim C1 (amended): the per-residue pipeline's maximum output value is
1.0 provided the largest per-residue total is attained by a residue id
between 2 and `max_res` (the aggregator drops residue 1 from the output but
still normalises by the overall maximum, so a strict maximum at residue 1
caps every output value below 1). -/
theorem claim_C1_amended_max_one (fi : List (String × ℚ)) (rows : List FeatRow) (k : ℕ)
    (h : dict_to_df_feat_importances fi = some rows)
    (hk2 : 2 ≤ k) (hkM : k ≤ maxRes rows)
    (hkmax : totScore rows k = maxTotScore rows)
    (hpos : 0 < maxTotScore rows) :
    ∃ out, aggregate_to_residues fi = some out ∧
      (1 : ℚ) ∈ out.map Prod.snd ∧ ∀ v ∈ out.map Prod.snd, v ≤ 1 := by
  have hne : rows ≠ [] := by
    intro hcon
    subst hcon
    rw [show maxRes ([] : List FeatRow) = 0 from rfl] at hkM
    omega
  have hM : 2 ≤ maxRes rows := le_trans hk2 hkM
  unfold aggregate_to_residues
  rw [h, Option.some_bind]
  refine ⟨_, per_res_importance_eq rows hne (by omega), ?_, ?_⟩
  · rw [List.map_map]
    have hsnd : (Prod.snd ∘ fun p : ℕ × ℚ => (p.1, round5 p.2)) = (fun p : ℕ × ℚ => round5 p.2) :=
      rfl
    rw [hsnd]
    have hkmem : k ∈ List.range' 2 (maxRes rows - 1) := by
      rw [List.mem_range'_1]
      omega
    have hmem : (k, totScore rows k / maxTotScore rows) ∈ canonPairs rows := by
      unfold canonPairs
      exact List.mem_map_of_mem _ hkmem
    have hval : round5 (totScore rows k / maxTotScore rows) = 1 := by
      rw [hkmax, div_self (ne_of_gt hpos), round5_one]
    rw [List.mem_map]
    exact ⟨(k, totScore rows k / maxTotScore rows), mem_sortDesc.mpr hmem, hval⟩
  · intro v hv
    rw [List.map_map] at hv
    obtain ⟨p, hp, hpe⟩ := List.mem_map.mp hv
    have hp2 : p ∈ canonPairs rows := mem_sortDesc.mp hp
    obtain ⟨k', hk', hke⟩ := List.mem_map.mp hp2
    have hkr := List.mem_range'_1.mp hk'
    have hts : totScore rows k' ∈ tot_scores_list rows := by
      unfold tot_scores_list
      refine List.mem_map_of_mem _ ?_
      rw [List.mem_range'_1]
      omega
    have hle : totScore rows k' ≤ maxTotScore rows := le_maxQ hts
    have hratio : totScore rows k' / maxTotScore rows ≤ 1 := by
      rw [div_le_one hpos]
      exact hle
    rw [← hpe, ← hke]
    exact round5_le_one _ hratio

/-- Claim C9: when every parsed residue id equals 1, the rescale loop runs
zero times and `_per_res_importance` returns an empty mapping with no error. -/
theorem claim_C9_all_ones_empty (fi : List (String × ℚ)) (rows : List FeatRow)
    (hfi : fi ≠ []) (h : dict_to_df_feat_importances fi = some rows)
    (hall : ∀ r ∈ rows, r.res1 = 1 ∧ r.res2 = 1) :
    aggregate_to_residues fi = some [] := by
  have hlen := dict_to_df_length h
  have hne : rows ≠ [] := by
    intro hcon
    subst hcon
    simp only [List.length_nil] at hlen
    exact hfi (List.length_eq_zero.mp hlen.symm)
  have hMr : maxRes rows = 1 := by
    unfold maxRes
    rw [foldl_max_all_one (rows.map (fun r => max r.res1 r.res2)) 0
      (by simp [hne]) ?hall1]
    case hall1 =>
      intro x hx
      obtain ⟨r, hr, hre⟩ := List.mem_map.mp hx
      obtain ⟨e1, e2⟩ := hall r hr
      rw [← hre, e1, e2]
      rfl
    rfl
  unfold aggregate_to_residues
  rw [h, Option.some_bind, per_res_importance_eq rows hne (by omega)]
  have hcp : canonPairs rows = [] := by
    unfold canonPairs
    rw [hMr]
    rfl
  rw [hcp]
  rfl

/-- Claim C7: swapping the two residue tokens inside any of the feature
names (which swaps `Res1` and `Res2` in the parsed rows) leaves the
per-residue aggregation result unchanged. -/
theorem claim_C7_swap_invariant (fi fi' : List (String × ℚ))
    (rows rows' : List FeatRow)
    (h : dict_to_df_feat_importances fi = some rows)
    (h' : dict_to_df_feat_importances fi' = some rows')
    (hsw : List.Forall₂ (fun r r2 => r2 = r ∨ r2 = swapRow r) rows rows') :
    aggregate_to_residues fi' = aggregate_to_residues fi := by
  unfold aggregate_to_residues
  rw [h, h', Option.some_bind, Option.some_bind]
  have hts : totScore rows' = totScore rows := funext (fun i => totScore_swapInv hsw i)
  have hmr : maxRes rows' = maxRes rows := maxRes_swapInv hsw
  have hlen : rows.length = rows'.length := hsw.length_eq
  have hie : rows'.isEmpty = rows.isEmpty := by
    cases rows <;> cases rows' <;> simp_all
  unfold per_res_importance
  rw [hie, hmr, hts]

/-- Restriction of score non-negativity through the positional parse
relation. -/
lemma forall₂_score_nonneg :
    ∀ {fi : List (String × ℚ)} {rows : List FeatRow},
      List.Forall₂ (fun (p : String × ℚ) (r : FeatRow) => parseFeature p.1 p.2 = some r) fi rows →
      (∀ p ∈ fi, 0 ≤ p.2) →
      List.Forall₂ (fun (p : String × ℚ) (r : FeatRow) => r.score = p.2) fi rows := by
  intro fi rows hf
  induction hf with
  | nil => intro _; exact List.Forall₂.nil
  | @cons p r fi2 rows2 hab hrest ih =>
    intro hnn
    refine List.Forall₂.cons ?_ (ih (fun q hq => hnn q (List.mem_cons_of_mem _ hq)))
    rw [parseFeature_score hab]
    exact abs_of_nonneg (hnn p (List.mem_cons_self _ _))

/-- Claim C6: the parsing stage takes the absolute value of every score (so
a linear-correlation score of -0.9 contributes 0.9), and on non-negative
scores — supervised and unsupervised importances, Jensen-Shannon distances
and mutual information — the scores pass through unchanged. -/
theorem claim_C6_abs_scores (fi : List (String × ℚ)) (rows : List FeatRow)
    (h : dict_to_df_feat_importances fi = some rows) :
    List.Forall₂ (fun (p : String × ℚ) (r : FeatRow) => r.score = |p.2|) fi rows ∧
    ((∀ p ∈ fi, 0 ≤ p.2) →
      List.Forall₂ (fun (p : String × ℚ) (r : FeatRow) => r.score = p.2) fi rows) := by
  have hf := parseRows_forall₂ (dict_to_df_some h).2
  exact ⟨hf.imp (fun a b hab => parseFeature_score hab), forall₂_score_nonneg hf⟩

/-- Claim C5: the component-selection loop accumulates explained-variance
ratios in order, always retains the first component, stops at the first
prefix whose total strictly exceeds the cutoff, and fails (`none`,
Python `IndexError`) exactly when the total variance of all supplied
components never strictly exceeds the cutoff. -/
theorem claim_C5_component_selection (v : ℚ) (vs : List ℚ) (cutoff : ℚ)
    (hnn : ∀ x ∈ v :: vs, 0 ≤ x) :
    (selectNumComponents cutoff (v :: vs) = none ↔ (v :: vs).sum ≤ cutoff) ∧
    (∀ p, selectNumComponents cutoff (v :: vs) = some p →
      1 ≤ p ∧ p ≤ (v :: vs).length ∧ cutoff < ((v :: vs).take p).sum ∧
      ∀ q, 1 ≤ q → q < p → ((v :: vs).take q).sum ≤ cutoff) := by
  constructor
  · rw [show selectNumComponents cutoff (v :: vs) = pcaGo cutoff v 1 vs from rfl,
      pcaGo_eq_none_iff]
    constructor
    · intro h
      have h0 := h vs.length (le_refl _)
      rw [List.take_length] at h0
      simpa using h0
    · intro h q hq
      have h1 : (vs.take q).sum ≤ vs.sum :=
        take_sum_le (fun x hx => hnn x (List.mem_cons_of_mem _ hx)) q
      have h2 : (v :: vs).sum = v + vs.sum := by simp
      linarith
  · intro p hp
    obtain ⟨j, hj1, hj2, hj3, hj4⟩ := pcaGo_eq_some cutoff vs v 1 p hp
    refine ⟨by omega, by simp only [List.length_cons]; omega, ?_, ?_⟩
    · rw [show p = j + 1 by omega, List.take_succ_cons, List.sum_cons]
      linarith
    · intro q h1q hqp
      obtain ⟨i, rfl⟩ : ∃ i, q = i + 1 := ⟨q - 1, by omega⟩
      rw [List.take_succ_cons, List.sum_cons]
      have := hj4 i (by omega)
      linarith

/-- Claim C10: `get_probability_distributions` recomputes the state exactly
when the Jensen-Shannon table is empty at call time, and returns the state
unchanged otherwise, on every branch. -/
theorem claim_C10_state_change (m : ClassificationStatModel) (nf : NumberFeatures) :
    (get_probability_distributions m nf).1 =
      if m.js_distances.isEmpty then calc_js_distances m else m := by
  have hif : (if m.js_distances.length = 0 then calc_js_distances m else m) =
      (if m.js_distances.isEmpty then calc_js_distances m else m) := by
    cases hjs : m.js_distances <;> simp [hjs]
  unfold get_probability_distributions
  rw [← hif]
  set m1 := if m.js_distances.length = 0 then calc_js_distances m else m with hm1
  cases nf with
  | str s =>
    by_cases hs : s = "all" <;> simp [hs]
  | int n =>
    dsimp only
    split_ifs with h1
    · rfl
    · rcases hb : buildSelected m1.class_names (pySlice (m1.js_distances.map Prod.fst) n)
          m1.probability_distributions with _ | sel <;> simp [hb]

/-- Claim C8 (amended): an invalid string other than `"all"` fails with a
`TypeError` at the `str >= int` comparison (not a selection error), while a
valid integer `0 ≤ n <` the feature count returns exactly the top-`n` ranked
features for every class, in the insertion order of `class_names`.  (A
negative integer raises nothing at all; see the counterexample.) -/
theorem claim_C8_amended_behaviour (m : ClassificationStatModel) (n : ℤ) (s : String)
    (hs : s ≠ "all") (hne : m.js_distances ≠ []) (h0 : 0 ≤ n)
    (hlt : n < (m.js_distances.length : ℤ)) (hwf : wfCheck m = true) :
    (get_probability_distributions m (NumberFeatures.str s)).2 =
      Except.error PyError.typeError ∧
    (get_probability_distributions m (NumberFeatures.int n)).2.toOption.map
        (fun r => (r.1, r.2.map Prod.fst, r.2.map (fun q => q.2.map Prod.fst))) =
      some (m.x_values, m.class_names,
        m.class_names.map (fun _ => (m.js_distances.map Prod.fst).take n.toNat)) := by
  have hlen0 : ¬ m.js_distances.length = 0 := by
    simpa [List.length_eq_zero] using hne
  have hm1 : (if m.js_distances.length = 0 then calc_js_distances m else m) = m :=
    if_neg hlen0
  constructor
  · unfold get_probability_distributions
    simp only [hm1, hs, if_false, ite_false]
  · unfold get_probability_distributions
    simp only [hm1]
    have hn2 : ¬ ((m.js_distances.length : ℤ) ≤ n) := by omega
    rw [if_neg hn2]
    have hslice : pySlice (m.js_distances.map Prod.fst) n =
        (m.js_distances.map Prod.fst).take n.toNat := by
      unfold pySlice
      rw [if_pos h0]
    have hwfx : ∀ cn ∈ m.class_names, ∃ table,
        m.probability_distributions.lookup cn = some table ∧
        ∀ f ∈ (m.js_distances.map Prod.fst).take n.toNat, (table.lookup f).isSome := by
      intro cn hcn
      obtain ⟨table, ht, hf⟩ := wfCheck_spec hwf cn hcn
      exact ⟨table, ht, fun f hfm => hf f (List.take_subset _ _ hfm)⟩
    obtain ⟨sel, hbuild, hkeys, hinner⟩ :=
      buildSelected_wf m.class_names ((m.js_distances.map Prod.fst).take n.toNat)
        m.probability_distributions hwfx
    rw [hslice, hbuild]
    have h3 : sel.map (fun q => q.2.map Prod.fst) =
        m.class_names.map (fun _ => (m.js_distances.map Prod.fst).take n.toNat) := by
      rw [List.map_congr_left (fun q hq => hinner q hq), List.map_const', List.map_const']
      congr 1
      rw [← hkeys, List.length_map]
    simp only [Except.toOption, Option.map_some', hkeys, h3]

/-- Claim C2 (failing input): with one retained component (variance ratio
0.97 above the 0.95 cutoff) and TWO features with loadings 0.6 and 0.8, the
eigenvalue loop of `_get_pca_importances` — which enumerates
`components_keep` instead of the features — produces a single sum, so the
returned mapping contains only the first feature (`"f2"` is silently
dropped by the final `zip`), contradicting the documented
one-entry-per-feature output. -/
theorem claim_C2_component_loop :
    get_pca_importances [97/100] [[3/5, 4/5]] ["f1", "f2"] (95/100) = some [("f1", 1)] := by
  have hsel : selectNumComponents (95/100 : ℚ) [97/100] = some 1 := by
    norm_num [selectNumComponents, pcaGo]
  have htake : (([[3/5, 4/5]] : List (List ℚ)).take 1) = [[3/5, 4/5]] := rfl
  have hgd : (([3/5, 4/5] : List ℚ).getD 0 0) = 3/5 := rfl
  have hv0 : (([97/100] : List ℚ).getD 0 0) = 97/100 := rfl
  have hr : List.range 1 = [0] := by decide
  unfold get_pca_importances
  simp only [hsel, Option.some_bind, htake]
  norm_num [hgd, hv0, hr, enumFromQ, scale_eigenvalues, maxQ]

/-- Claim C1 (counterexample): two features both involving residue 1 give
residue 1 the strictly largest total; the aggregator drops residue 1 from
the output but still divides by its total, so every returned value is 0.5
and the output's maximum is not 1. -/
theorem claim_C1_counterexample :
    aggregate_to_residues [("A1 A2", 3), ("A1 A3", 3)] = some [(2, 1/2), (3, 1/2)] ∧
    maxQ (([(2, (1 : ℚ)/2), (3, 1/2)] : List (ℕ × ℚ)).map Prod.snd) ≠ 1 := by
  constructor
  · have hp1 : parseResIds ['A', '1', ' ', 'A', '2'] = some (1, 2) := by decide
    have hp2 : parseResIds ['A', '1', ' ', 'A', '3'] = some (1, 3) := by decide
    have hrows : dict_to_df_feat_importances [("A1 A2", 3), ("A1 A3", 3)] =
        some [⟨1, 2, 3⟩, ⟨1, 3, 3⟩] := by
      norm_num [dict_to_df_feat_importances, parseRows, parseFeature, hp1, hp2]
    rw [aggregate_to_residues, hrows, Option.some_bind]
    have hM : maxRes [⟨1, 2, 3⟩, ⟨1, 3, 3⟩] = 3 := by decide
    have hr : List.range' 1 3 = [1, 2, 3] := by decide
    norm_num [per_res_importance, hM, hr, totScore, List.filter_cons, maxQ, sortDesc,
      insertDesc, round5, roundHalfEven, max_def, List.getD, List.get?]
  · norm_num [maxQ, max_def]

/-- Claim C4 (counterexample): the single feature `"A1 A5"` involves only
residues 1 and 5, yet the output has keys 2, 3, 4, 5 — residue 1 is observed
but absent, and residues 2, 3, 4 were never observed but are present. -/
theorem claim_C4_counterexample :
    dict_to_df_feat_importances [("A1 A5", 1)] = some [⟨1, 5, 1⟩] ∧
    aggregate_to_residues [("A1 A5", 1)] =
      some [(5, 1), (2, 0), (3, 0), (4, 0)] ∧
    1 ∉ ([(5, (1 : ℚ)), (2, 0), (3, 0), (4, 0)] : List (ℕ × ℚ)).map Prod.fst ∧
    3 ∈ ([(5, (1 : ℚ)), (2, 0), (3, 0), (4, 0)] : List (ℕ × ℚ)).map Prod.fst := by
  have hp1 : parseResIds ['A', '1', ' ', 'A', '5'] = some (1, 5) := by decide
  have hrows : dict_to_df_feat_importances [("A1 A5", 1)] = some [⟨1, 5, 1⟩] := by
    norm_num [dict_to_df_feat_importances, parseRows, parseFeature, hp1]
  refine ⟨hrows, ?_, by decide, by decide⟩
  rw [aggregate_to_residues, hrows, Option.some_bind]
  have hM : maxRes [(⟨1, 5, 1⟩ : FeatRow)] = 5 := by decide
  have hr : List.range' 1 5 = [1, 2, 3, 4, 5] := by decide
  norm_num [per_res_importance, hM, hr, totScore, List.filter_cons, maxQ, sortDesc,
    insertDesc, round5, roundHalfEven, max_def, List.getD, List.get?]

/-- A small concrete classification-statistics state: two ranked features,
two classes, a complete probability-distribution table. -/
def sampleModel : ClassificationStatModel where
  js_distances := [("A1 A2 x", 9/10), ("A2 A3 x", 1/2)]
  x_values := [0]
  probability_distributions :=
    [("c0", [("A1 A2 x", [1]), ("A2 A3 x", [2])]),
     ("c1", [("A1 A2 x", [3]), ("A2 A3 x", [4])])]
  class_names := ["c0", "c1"]
  js_table := []

/-- Claim C8 (counterexample): with 2 ranked features, asking for
`number_features = -1` raises nothing: the slice `[0:-1]` silently selects
all but the last ranked feature and the call succeeds, where the claim
demands an `InvalidSelectionError`. -/
theorem claim_C8_counterexample :
    (get_probability_distributions sampleModel (NumberFeatures.int (-1))).2 =
      Except.ok (([0] : List ℚ),
        [("c0", [("A1 A2 x", ([1] : List ℚ))]), ("c1", [("A1 A2 x", ([3] : List ℚ))])]) := by
  rfl

/-- Witness for claim C3 at a concrete two-feature row set with ids 1..3. -/
theorem claim_C3_witness :
    ∃ out, per_res_importance [⟨1, 2, 1⟩, ⟨2, 3, 2⟩] = some out ∧
      (out.map Prod.fst).Perm (List.range' 2 (3 - 1)) ∧
      ∀ k v, (k, v) ∈ out →
        v = round5 ((tot_scores_list [⟨1, 2, 1⟩, ⟨2, 3, 2⟩]).getD (k - 1) 0 /
          maxQ (tot_scores_list [⟨1, 2, 1⟩, ⟨2, 3, 2⟩])) :=
  claim_C3_shifted_keys [⟨1, 2, 1⟩, ⟨2, 3, 2⟩] 3 (by decide) (by norm_num)

/-- Witness for the amended claim C4 at a concrete two-feature input. -/
theorem claim_C4_witness :
    ∃ out, aggregate_to_residues [("A1 A2", 1), ("A2 A3", 1)] = some out ∧
      (out.map Prod.fst).Perm (List.range' 2 (maxRes [⟨1, 2, 1⟩, ⟨2, 3, 1⟩] - 1)) :=
  claim_C4_amended_range [("A1 A2", 1), ("A2 A3", 1)] [⟨1, 2, 1⟩, ⟨2, 3, 1⟩]
    (by
      have hp1 : parseResIds ['A', '1', ' ', 'A', '2'] = some (1, 2) := by decide
      have hp2 : parseResIds ['A', '2', ' ', 'A', '3'] = some (2, 3) := by decide
      norm_num [dict_to_df_feat_importances, parseRows, parseFeature, hp1, hp2])
    (by decide)

/-- Witness for the amended claim C1 at a concrete one-feature input whose
maximal total sits at residue 2. -/
theorem claim_C1_witness :
    ∃ out, aggregate_to_residues [("A1 A2", 1)] = some out ∧
      (1 : ℚ) ∈ out.map Prod.snd ∧ ∀ v ∈ out.map Prod.snd, v ≤ 1 :=
  claim_C1_amended_max_one [("A1 A2", 1)] [⟨1, 2, 1⟩] 2
    (by
      have hp1 : parseResIds ['A', '1', ' ', 'A', '2'] = some (1, 2) := by decide
      norm_num [dict_to_df_feat_importances, parseRows, parseFeature, hp1])
    (by norm_num)
    (by decide)
    (by
      have hr : List.range' 1 2 = [1, 2] := by decide
      have hMr : maxRes [(⟨1, 2, 1⟩ : FeatRow)] = 2 := by decide
      norm_num [totScore, maxTotScore, tot_scores_list, hMr, hr, maxQ, List.filter_cons,
        max_def])
    (by
      have hr : List.range' 1 2 = [1, 2] := by decide
      have hMr : maxRes [(⟨1, 2, 1⟩ : FeatRow)] = 2 := by decide
      norm_num [totScore, maxTotScore, tot_scores_list, hMr, hr, maxQ, List.filter_cons,
        max_def])

/-- Witness for claim C9: a feature whose two tokens both parse to residue 1. -/
theorem claim_C9_witness : aggregate_to_residues [("A1 B1", 1)] = some [] :=
  claim_C9_all_ones_empty [("A1 B1", 1)] [⟨1, 1, 1⟩]
    (by simp)
    (by
      have hp1 : parseResIds ['A', '1', ' ', 'B', '1'] = some (1, 1) := by decide
      norm_num [dict_to_df_feat_importances, parseRows, parseFeature, hp1])
    (by
      intro r hr
      rw [List.mem_singleton] at hr
      subst hr
      exact ⟨rfl, rfl⟩)

/-- Witness for claim C7: the feature name `"A12 B7"` against its
token-swapped form `"B7 A12"`. -/
theorem claim_C7_witness :
    aggregate_to_residues [("B7 A12", 1/2)] = aggregate_to_residues [("A12 B7", 1/2)] :=
  claim_C7_swap_invariant [("A12 B7", 1/2)] [("B7 A12", 1/2)]
    [⟨12, 7, 1/2⟩] [⟨7, 12, 1/2⟩]
    (by
      have hp1 : parseResIds ['A', '1', '2', ' ', 'B', '7'] = some (12, 7) := by decide
      norm_num [dict_to_df_feat_importances, parseRows, parseFeature, hp1])
    (by
      have hp2 : parseResIds ['B', '7', ' ', 'A', '1', '2'] = some (7, 12) := by decide
      norm_num [dict_to_df_feat_importances, parseRows, parseFeature, hp2])
    (List.Forall₂.cons (Or.inr rfl) List.Forall₂.nil)

/-- Witness for claim C6: a negative linear-correlation score contributes
its absolute value, a non-negative score passes through unchanged. -/
theorem claim_C6_witness :
    List.Forall₂ (fun (p : String × ℚ) (r : FeatRow) => r.score = |p.2|)
      [("A1 A2", -(9/10))] [⟨1, 2, 9/10⟩] ∧
    List.Forall₂ (fun (p : String × ℚ) (r : FeatRow) => r.score = p.2)
      [("A2 A3", 3/10)] [⟨2, 3, 3/10⟩] :=
  ⟨(claim_C6_abs_scores [("A1 A2", -(9/10))] [⟨1, 2, 9/10⟩]
      (by
        have hp1 : parseResIds ['A', '1', ' ', 'A', '2'] = some (1, 2) := by decide
        norm_num [dict_to_df_feat_importances, parseRows, parseFeature, hp1])).1,
   (claim_C6_abs_scores [("A2 A3", 3/10)] [⟨2, 3, 3/10⟩]
      (by
        have hp2 : parseResIds ['A', '2', ' ', 'A', '3'] = some (2, 3) := by decide
        norm_num [dict_to_df_feat_importances, parseRows, parseFeature, hp2])).2
    (by
      intro p hp
      rw [List.mem_singleton] at hp
      subst hp
      norm_num)⟩

/-- Witness for claim C5: three components of ratio 0.2 against cutoff 0.95. -/
theorem claim_C5_witness :
    (selectNumComponents (95/100) (1/5 :: [1/5, 1/5]) = none ↔
      ((1/5 : ℚ) :: [1/5, 1/5]).sum ≤ 95/100) ∧
    (∀ p, selectNumComponents (95/100) (1/5 :: [1/5, 1/5]) = some p →
      1 ≤ p ∧ p ≤ ((1/5 : ℚ) :: [1/5, 1/5]).length ∧
      95/100 < (((1/5 : ℚ) :: [1/5, 1/5]).take p).sum ∧
      ∀ q, 1 ≤ q → q < p → (((1/5 : ℚ) :: [1/5, 1/5]).take q).sum ≤ 95/100) :=
  claim_C5_component_selection (1/5) [1/5, 1/5] (95/100)
    (by
      intro x hx
      simp only [List.mem_cons, List.not_mem_nil, or_false] at hx
      rcases hx with h | h | h <;> subst h <;> norm_num)

/-- Witness for the amended claim C8 at the concrete sample model, with the
invalid string `"top"` and the valid feature count 1. -/
theorem claim_C8_witness :
    ((get_probability_distributions sampleModel (NumberFeatures.str "top")).2 =
      Except.error PyError.typeError) ∧
    ((get_probability_distributions sampleModel (NumberFeatures.int 1)).2.toOption.map
        (fun r => (r.1, r.2.map Prod.fst, r.2.map (fun q => q.2.map Prod.fst))) =
      some (sampleModel.x_values, sampleModel.class_names,
        sampleModel.class_names.map
          (fun _ => (sampleModel.js_distances.map Prod.fst).take (Int.toNat 1)))) :=
  claim_C8_amended_behaviour sampleModel 1 "top" (by decide) (by decide) (by decide)
    (by decide) (by decide)
